import Mathlib

/-!
Shallow embedding of the permission-aware reaction/tag core of the memos
repository, together with proofs of its specified properties.

Part 1 embeds `server/router/api/v1/reaction_service.go`
(`ListMemoReactions`, `UpsertMemoReaction`, `DeleteMemoReaction`,
`convertReactionFromStore`).  The store layer, the current-user lookup and
the webhook transport are external collaborators; each handler is therefore
a deterministic function of an environment record holding the outcome of
every external call it makes, and the handler body mirrors the Go control
flow over those outcomes.  Mutating store calls are additionally recorded
in the handler output so that "no mutation happened" is observable.

Part 2 models the tag-aggregation core (`ListUserTags` /
`sortTagsByHierarchy` and the visibility policy); its implementation is not
among the provided sources (only its tests are), so those definitions are
modelled from the specification text, as marked in their doc comments.
-/

namespace Memos

/-- gRPC status codes that appear in the handlers of the reaction service
(plus `notFound`, which the service never uses, so that its absence can be
stated). -/
inductive Code where
  | internal
  | unauthenticated
  | invalidArgument
  | permissionDenied
  | notFound
  deriving DecidableEq, Repr

/-- A gRPC status error as built by `status.Errorf`: a code plus the
formatted message string. -/
structure Err where
  code : Code
  msg : String
  deriving DecidableEq, Repr

/-- A `store.Reaction` row. -/
structure StoreReaction where
  id : Int
  creatorId : Int
  contentId : String
  reactionType : String
  createdTs : Int
  deriving DecidableEq, Repr

/-- The current user as the handlers consume it: its id together with the
value of `isSuperUser(user)`.  Modelled from the spec: `isSuperUser` (whose
definition is outside the provided sources) distinguishes the privileged
role that bypasses ownership checks. -/
structure User where
  id : Int
  superUser : Bool
  deriving DecidableEq, Repr

/-- Modelled from the spec: a privileged requester bypasses ownership
checks; the handlers consult it through this predicate. -/
def isSuperUser (u : User) : Bool := u.superUser

/-- A `store.Memo` row, reduced to the fields the reaction service touches. -/
structure Memo where
  id : Int
  uid : String
  deriving DecidableEq, Repr

/-- A `store.Attachment` row (opaque to this service). -/
structure Attachment where
  id : Int
  deriving DecidableEq, Repr

/-- Modelled from the spec: the `users/` resource-name prefix used when
formatting a reaction's creator (its definition lives outside the provided
sources; the tests format user names as `users/{id}`). -/
def UserNamePrefix : String := "users/"

/-- Modelled from the spec: the `reactions/` resource-name prefix used when
formatting a reaction's nested resource name. -/
def ReactionNamePrefix : String := "reactions/"

/-- The `v1pb.Reaction` message produced by `convertReactionFromStore`. -/
structure ReactionMessage where
  name : String
  creator : String
  contentId : String
  reactionType : String
  createTime : Int
  deriving DecidableEq, Repr

/-- Embedding of `convertReactionFromStore`: builds the nested resource
name `{contentID}/{ReactionNamePrefix}{id}`, the creator name
`{UserNamePrefix}{creatorID}`, and copies the remaining fields. -/
def convertReactionFromStore (r : StoreReaction) : ReactionMessage :=
  { name := r.contentId ++ "/" ++ ReactionNamePrefix ++ toString r.id
    creator := UserNamePrefix ++ toString r.creatorId
    contentId := r.contentId
    reactionType := r.reactionType
    createTime := r.createdTs }

/-- A `store.FindReaction` filter: optional id and optional content id. -/
structure FindReaction where
  id : Option Int
  contentId : Option String
  deriving DecidableEq, Repr

/-- Whether a stored reaction row matches a `FindReaction` filter. -/
def matchesFind (f : FindReaction) (r : StoreReaction) : Bool :=
  (match f.id with
   | some i => r.id == i
   | none => true) &&
  (match f.contentId with
   | some c => r.contentId == c
   | none => true)

/-- Modelled from the spec: `store.ListReactions` returns the stored
reaction rows matching the filter (the store engine itself is an external
collaborator; its query is the evident filter over the reaction table). -/
def storeListReactions (db : List StoreReaction) (f : FindReaction) : List StoreReaction :=
  db.filter (matchesFind f)

/-- Modelled from the spec: `store.GetReaction` returns the first stored
row matching the filter, or nothing when no row matches. -/
def storeGetReaction (db : List StoreReaction) (f : FindReaction) : Option StoreReaction :=
  (storeListReactions db f).head?

/-- Embedding of `ListMemoReactions`: list the stored reactions whose
content id equals the request name and convert each one; a store failure
becomes an `Internal` error.  The handler never consults any requester
identity. -/
def ListMemoReactions (listFails : Bool) (db : List StoreReaction) (name : String) :
    Except Err (List ReactionMessage) :=
  if listFails then
    .error ⟨.internal, "failed to list reactions"⟩
  else
    .ok ((storeListReactions db { id := none, contentId := some name }).map
      convertReactionFromStore)

/-- Every external outcome `DeleteMemoReaction` can observe. -/
structure DeleteEnv where
  fetchCurrentUser : Except String (Option User)
  parseReactionName : Except String (String × Int)
  db : List StoreReaction
  getReactionFails : Bool
  deleteReactionFails : Bool
  deriving Repr

/-- Result of `DeleteMemoReaction` plus whether `store.DeleteReaction` was
invoked. -/
structure DeleteOut where
  result : Except Err Unit
  deleteCalled : Bool
  deriving Repr

/-- Embedding of `DeleteMemoReaction`, mirroring the Go control flow: fetch
the current user (error → `Internal`, nil → `Unauthenticated`), parse the
reaction name (error → `InvalidArgument`), get the reaction by id (store
error → `Internal`, absent → `PermissionDenied` to avoid revealing whether
the reaction exists), check ownership against the reaction's creator id or
super-user status (failure → `PermissionDenied`), then delete. -/
def DeleteMemoReaction (env : DeleteEnv) : DeleteOut :=
  match env.fetchCurrentUser with
  | .error e => ⟨.error ⟨.internal, "failed to get current user: " ++ e⟩, false⟩
  | .ok none => ⟨.error ⟨.unauthenticated, "user not authenticated"⟩, false⟩
  | .ok (some user) =>
    match env.parseReactionName with
    | .error e => ⟨.error ⟨.invalidArgument, "invalid reaction name: " ++ e⟩, false⟩
    | .ok (_, reactionID) =>
      if env.getReactionFails then
        ⟨.error ⟨.internal, "failed to get reaction"⟩, false⟩
      else
        match storeGetReaction env.db { id := some reactionID, contentId := none } with
        | none => ⟨.error ⟨.permissionDenied, "permission denied"⟩, false⟩
        | some reaction =>
          if reaction.creatorId != user.id && !(isSuperUser user) then
            ⟨.error ⟨.permissionDenied, "permission denied"⟩, false⟩
          else if env.deleteReactionFails then
            ⟨.error ⟨.internal, "failed to delete reaction"⟩, true⟩
          else
            ⟨.ok (), true⟩

/-- The reaction carried by an upsert request (`v1pb.Reaction`); the
handler reads only `contentId` and `reactionType`, never `creator`. -/
structure ReactionInput where
  name : String
  creator : String
  contentId : String
  reactionType : String
  deriving DecidableEq, Repr

/-- An `UpsertMemoReaction` request. -/
structure UpsertRequest where
  reaction : ReactionInput
  deriving DecidableEq, Repr

/-- The warnings the upsert handler can log during webhook assembly. -/
inductive Warn where
  | listReactionsFailed
  | listAttachmentsFailed
  | convertMemoFailed
  | dispatchFailed
  deriving DecidableEq, Repr

/-- Observable trace of the best-effort webhook phase: the reaction and
attachment lists used for payload assembly (when assembly was reached),
whether `DispatchMemoReactedWebhook` was invoked, and the warnings logged. -/
structure WebhookTrace where
  reactionsUsed : Option (List StoreReaction) := none
  attachmentsUsed : Option (List Attachment) := none
  dispatched : Bool := false
  warnings : List Warn := []
  deriving DecidableEq, Repr

/-- Every external outcome `UpsertMemoReaction` can observe. -/
structure UpsertEnv where
  fetchCurrentUser : Except String (Option User)
  upsertResult : Except Unit (Int × Int)
  extractMemoUID : Except String String
  getMemoResult : Except Unit (Option Memo)
  listReactionsResult : Except Unit (List StoreReaction)
  listAttachmentsResult : Except Unit (List Attachment)
  convertMemoOk : Bool
  dispatchOk : Bool
  deriving Repr

/-- Result of `UpsertMemoReaction`: the gRPC result, the row handed to
`store.UpsertReaction` (when the store was reached), and the webhook
trace. -/
structure UpsertOut where
  result : Except Err ReactionMessage
  storedRow : Option StoreReaction
  trace : WebhookTrace
  deriving Repr

/-- Modelled from the spec: `store.UpsertReaction` is an idempotent
replacement under the (creatorId, contentId, reactionType) natural key, so
the row it returns carries exactly the inserted key fields together with a
store-chosen id and creation timestamp. -/
def storeUpsertReaction (row : StoreReaction) (id ts : Int) : StoreReaction :=
  { row with id := id, createdTs := ts }

/-- The best-effort webhook phase of `UpsertMemoReaction`: extract the memo
UID (failure → skip silently), fetch the memo (failure or nil → skip), fetch
the reaction and attachment lists (each failure → warn and use the empty
list), convert the memo (failure → warn) and dispatch (failure → warn).
Nothing in this phase escapes to the caller. -/
def upsertWebhookPhase (env : UpsertEnv) : WebhookTrace :=
  match env.extractMemoUID with
  | .error _ => {}
  | .ok _ =>
    match env.getMemoResult with
    | .error _ => {}
    | .ok none => {}
    | .ok (some _) =>
      let rw :=
        match env.listReactionsResult with
        | .error _ => (([] : List StoreReaction), [Warn.listReactionsFailed])
        | .ok rs => (rs, [])
      let aw :=
        match env.listAttachmentsResult with
        | .error _ => (([] : List Attachment), [Warn.listAttachmentsFailed])
        | .ok xs => (xs, [])
      if env.convertMemoOk then
        if env.dispatchOk then
          { reactionsUsed := some rw.1, attachmentsUsed := some aw.1,
            dispatched := true, warnings := rw.2 ++ aw.2 }
        else
          { reactionsUsed := some rw.1, attachmentsUsed := some aw.1,
            dispatched := true, warnings := rw.2 ++ aw.2 ++ [Warn.dispatchFailed] }
      else
        { reactionsUsed := some rw.1, attachmentsUsed := some aw.1,
          dispatched := false, warnings := rw.2 ++ aw.2 ++ [Warn.convertMemoFailed] }

/-- Embedding of `UpsertMemoReaction`: fetch the current user (error →
`Internal`, nil → `Unauthenticated`), upsert a reaction row whose creator is
the current user (store failure → `Internal`), convert the stored row for
the response, run the best-effort webhook phase, and return the converted
reaction regardless of the webhook outcome. -/
def UpsertMemoReaction (env : UpsertEnv) (req : UpsertRequest) : UpsertOut :=
  match env.fetchCurrentUser with
  | .error _ => ⟨.error ⟨.internal, "failed to get current user"⟩, none, {}⟩
  | .ok none => ⟨.error ⟨.unauthenticated, "user not authenticated"⟩, none, {}⟩
  | .ok (some user) =>
    let row : StoreReaction :=
      { id := 0, creatorId := user.id, contentId := req.reaction.contentId,
        reactionType := req.reaction.reactionType, createdTs := 0 }
    match env.upsertResult with
    | .error _ => ⟨.error ⟨.internal, "failed to upsert reaction"⟩, some row, {}⟩
    | .ok (rid, ts) =>
      ⟨.ok (convertReactionFromStore (storeUpsertReaction row rid ts)), some row,
        upsertWebhookPhase env⟩

/-- A content visibility tier. -/
inductive Visibility where
  | Private
  | Protected
  | Public
  deriving DecidableEq, Repr

/-- A requester identity: anonymous, or an authenticated user id together
with whether it is privileged. -/
inductive Requester where
  | anonymous
  | authenticated (userId : Int) (isPrivileged : Bool)
  deriving DecidableEq, Repr

/-- A content item (memo) as the tag aggregation consumes it: creator,
visibility tier, and its list of tag strings. -/
structure ContentItem where
  creatorId : Int
  visibility : Visibility
  tags : List String
  deriving DecidableEq, Repr

/-- Modelled from the spec: `VisibilityPolicy.canView`, rules in priority
order — creator, privileged, PUBLIC, PROTECTED with any authenticated
requester; otherwise deny. -/
def canView (vis : Visibility) (creatorId : Int) (req : Requester) : Bool :=
  match req with
  | .authenticated uid priv =>
      uid == creatorId || priv || vis == .Public || vis == .Protected
  | .anonymous => vis == .Public

/-- Codepoint comparison of two characters. -/
def chrCmp (a b : Char) : Ordering := compare a.toNat b.toNat

/-- Lexicographic lifting of a comparator to lists: elementwise from the
left, a strict prefix ordering before its extensions. -/
def listLex (cmp : α → α → Ordering) : List α → List α → Ordering
  | [], [] => .eq
  | [], _ :: _ => .lt
  | _ :: _, [] => .gt
  | a :: as, b :: bs =>
    match cmp a b with
    | .eq => listLex cmp as bs
    | o => o

/-- Comparison through a key function. -/
def cmpOn (f : β → α) (cmp : α → α → Ordering) (a b : β) : Ordering :=
  cmp (f a) (f b)

/-- Primary comparison with a tie-break: use the second comparator only
when the first one says equal. -/
def cmpThen (c₁ c₂ : α → α → Ordering) (a b : α) : Ordering :=
  match c₁ a b with
  | .eq => c₂ a b
  | o => o

/-- Lexicographic codepoint comparison of two character lists. -/
def charsCmp : List Char → List Char → Ordering := listLex chrCmp

/-- Modelled from the spec: comparison of two tag segments — compare the
normalized keys (the pluggable emoji-stripping normalization `norm`)
lexicographically, falling back to the raw codepoint order only to break
ties when the normalized keys are equal. -/
def segCmp (norm : List Char → List Char) : List Char → List Char → Ordering :=
  cmpThen (cmpOn norm charsCmp) charsCmp

/-- Splits a character list at `/` separators (structural version of
splitting a string on `"/"`). -/
def splitSegsAux : List Char → List Char → List (List Char)
  | [], acc => [acc.reverse]
  | c :: cs, acc =>
    if c = '/' then acc.reverse :: splitSegsAux cs []
    else splitSegsAux cs (c :: acc)

/-- The `/`-separated segment sequence of a tag. -/
def tagSegs (t : String) : List (List Char) := splitSegsAux t.data []

/-- Modelled from the spec: the hierarchy-aware tag comparator — split each
tag on `/` into segments and compare segment-by-segment, an ancestor
(strict prefix by segments) before its descendants, each segment compared
by normalized key with raw codepoint tie-break. -/
def tagCmp (norm : List Char → List Char) : String → String → Ordering :=
  cmpOn tagSegs (listLex (segCmp norm))

/-- The sorting relation induced by the tag comparator. -/
def tagLE (norm : List Char → List Char) (s t : String) : Prop :=
  tagCmp norm s t ≠ Ordering.gt

instance tagLE.instDecRel (norm : List Char → List Char) : DecidableRel (tagLE norm) :=
  fun s t =>
    if h : tagCmp norm s t = Ordering.gt then .isFalse (fun hc => hc h) else .isTrue h

/-- Whether a tag string is empty after trimming, i.e. consists solely of
whitespace characters. -/
def trimEmpty (t : String) : Bool := t.data.all (fun c => c.isWhitespace)

/-- The multiset of tag strings drawn from the content items the requester
may see. -/
def visibleTags (items : List ContentItem) (req : Requester) : List String :=
  ((items.filter (fun it => canView it.visibility it.creatorId req)).map
    ContentItem.tags).flatten

/-- Modelled from the spec: `aggregateTags` — filter the items through the
visibility policy, flatten their tags, drop tags that are empty after
trimming, deduplicate exactly, and sort with the hierarchy-aware
comparator. -/
def aggregateTags (norm : List Char → List Char) (items : List ContentItem)
    (req : Requester) : List String :=
  List.insertionSort (tagLE norm)
    (((visibleTags items req).filter (fun t => !(trimEmpty t))).dedup)

/-- The algebraic laws of a comparator that make its induced weak order
total and transitive: reflexive equality, swap antisymmetry, congruence of
equal elements, and transitivity of strict comparison. -/
structure CmpLaws (cmp : α → α → Ordering) : Prop where
  self_eq : ∀ a, cmp a a = Ordering.eq
  swap_eq : ∀ a b, cmp a b = (cmp b a).swap
  eq_left : ∀ a b c, cmp a b = Ordering.eq → cmp a c = cmp b c
  lt_trans : ∀ a b c, cmp a b = Ordering.lt → cmp b c = Ordering.lt →
    cmp a c = Ordering.lt

theorem CmpLaws.eq_right {cmp : α → α → Ordering} (h : CmpLaws cmp) (a b c : α)
    (hab : cmp a b = Ordering.eq) : cmp c a = cmp c b := by
  rw [h.swap_eq c a, h.swap_eq c b, h.eq_left a b c hab]

theorem CmpLaws.gt_of_swap {cmp : α → α → Ordering} (h : CmpLaws cmp) (a b : α)
    (hab : cmp a b = Ordering.gt) : cmp b a = Ordering.lt := by
  have hs := h.swap_eq a b
  rw [hab] at hs
  cases hba : cmp b a <;> rw [hba] at hs <;> simp [Ordering.swap] at hs ⊢

theorem chrCmp_laws : CmpLaws chrCmp := by
  constructor
  · intro a
    exact Nat.compare_eq_eq.mpr rfl
  · intro a b
    exact (Nat.compare_swap b.toNat a.toNat).symm
  · intro a b c hab
    have : a.toNat = b.toNat := Nat.compare_eq_eq.mp hab
    unfold chrCmp
    rw [this]
  · intro a b c hab hbc
    exact Nat.compare_eq_lt.mpr
      (Nat.lt_trans (Nat.compare_eq_lt.mp hab) (Nat.compare_eq_lt.mp hbc))

theorem cmpOn_laws (f : β → α) {cmp : α → α → Ordering} (h : CmpLaws cmp) :
    CmpLaws (cmpOn f cmp) :=
  ⟨fun a => h.self_eq (f a),
   fun a b => h.swap_eq (f a) (f b),
   fun a b c hab => h.eq_left (f a) (f b) (f c) hab,
   fun a b c hab hbc => h.lt_trans (f a) (f b) (f c) hab hbc⟩

theorem cmpThen_laws {c₁ c₂ : α → α → Ordering} (h₁ : CmpLaws c₁) (h₂ : CmpLaws c₂) :
    CmpLaws (cmpThen c₁ c₂) := by
  constructor
  · intro a
    simp [cmpThen, h₁.self_eq, h₂.self_eq]
  · intro a b
    unfold cmpThen
    rw [h₁.swap_eq a b]
    cases hba : c₁ b a <;> simp [Ordering.swap, h₂.swap_eq a b]
  · intro a b c hab
    unfold cmpThen at hab ⊢
    cases h1ab : c₁ a b <;> simp only [h1ab] at hab
    · exact absurd hab (by decide)
    · rw [h₁.eq_left a b c h1ab, h₂.eq_left a b c hab]
    · exact absurd hab (by decide)
  · intro a b c hab hbc
    unfold cmpThen at hab hbc ⊢
    cases h1ab : c₁ a b <;> simp only [h1ab] at hab
    case lt =>
      cases h1bc : c₁ b c <;> simp only [h1bc] at hbc
      case lt => rw [h₁.lt_trans a b c h1ab h1bc]
      case eq => rw [← h₁.eq_right b c a h1bc, h1ab]
      case gt => exact absurd hbc (by decide)
    case eq =>
      cases h1bc : c₁ b c <;> simp only [h1bc] at hbc
      case lt => rw [h₁.eq_left a b c h1ab, h1bc]
      case eq =>
        have hac : c₁ a c = Ordering.eq := by rw [h₁.eq_left a b c h1ab, h1bc]
        rw [hac]
        exact h₂.lt_trans a b c hab hbc
      case gt => exact absurd hbc (by decide)
    case gt => exact absurd hab (by decide)

theorem listLex_laws {cmp : α → α → Ordering} (h : CmpLaws cmp) :
    CmpLaws (listLex cmp) := by
  constructor
  · intro x
    induction x with
    | nil => rfl
    | cons a as ih => simp [listLex, h.self_eq, ih]
  · intro x
    induction x with
    | nil =>
      intro y
      cases y <;> rfl
    | cons a as ih =>
      intro y
      cases y with
      | nil => rfl
      | cons b bs =>
        simp only [listLex]
        rw [h.swap_eq a b]
        cases hba : cmp b a <;> simp [Ordering.swap, ih bs]
  · intro x
    induction x with
    | nil =>
      intro y z hxy
      cases y with
      | nil => rfl
      | cons b bs => exact absurd hxy (by simp [listLex])
    | cons a as ih =>
      intro y z hxy
      cases y with
      | nil => exact absurd hxy (by simp [listLex])
      | cons b bs =>
        cases z with
        | nil => rfl
        | cons c cs =>
          simp only [listLex] at hxy ⊢
          cases hab : cmp a b <;> simp only [hab] at hxy
          case lt => exact absurd hxy (by decide)
          case gt => exact absurd hxy (by decide)
          case eq =>
            rw [h.eq_left a b c hab]
            cases hbc : cmp b c
            case lt => rfl
            case eq => exact ih bs cs hxy
            case gt => rfl
  · intro x
    induction x with
    | nil =>
      intro y z hxy hyz
      cases y with
      | nil => exact absurd hxy (by simp [listLex])
      | cons b bs =>
        cases z with
        | nil => exact absurd hyz (by simp [listLex])
        | cons c cs => simp [listLex]
    | cons a as ih =>
      intro y z hxy hyz
      cases y with
      | nil => exact absurd hxy (by simp [listLex])
      | cons b bs =>
        cases z with
        | nil => exact absurd hyz (by simp [listLex])
        | cons c cs =>
          simp only [listLex] at hxy hyz ⊢
          cases hab : cmp a b <;> simp only [hab] at hxy
          case lt =>
            cases hbc : cmp b c <;> simp only [hbc] at hyz
            case lt => rw [h.lt_trans a b c hab hbc]
            case eq => rw [← h.eq_right b c a hbc, hab]
            case gt => exact absurd hyz (by decide)
          case eq =>
            cases hbc : cmp b c <;> simp only [hbc] at hyz
            case lt => rw [h.eq_left a b c hab, hbc]
            case eq =>
              have hac : cmp a c = Ordering.eq := by rw [h.eq_left a b c hab, hbc]
              rw [hac]
              exact ih bs cs hxy hyz
            case gt => exact absurd hyz (by decide)
          case gt => exact absurd hxy (by decide)

theorem charsCmp_laws : CmpLaws charsCmp := listLex_laws chrCmp_laws

theorem segCmp_laws (norm : List Char → List Char) : CmpLaws (segCmp norm) :=
  cmpThen_laws (cmpOn_laws norm charsCmp_laws) charsCmp_laws

theorem tagCmp_laws (norm : List Char → List Char) : CmpLaws (tagCmp norm) :=
  cmpOn_laws tagSegs (listLex_laws (segCmp_laws norm))

theorem tagLE_total (norm : List Char → List Char) (a b : String) :
    tagLE norm a b ∨ tagLE norm b a := by
  by_cases hab : tagCmp norm a b = Ordering.gt
  · right
    intro hba
    have := (tagCmp_laws norm).gt_of_swap a b hab
    rw [this] at hba
    exact absurd hba (by decide)
  · left
    exact hab

theorem tagLE_trans (norm : List Char → List Char) (a b c : String)
    (hab : tagLE norm a b) (hbc : tagLE norm b c) : tagLE norm a c := by
  have laws := tagCmp_laws norm
  unfold tagLE at hab hbc ⊢
  cases h1 : tagCmp norm a b
  case lt =>
    cases h2 : tagCmp norm b c
    case lt => rw [laws.lt_trans a b c h1 h2]; decide
    case eq => rw [← laws.eq_right b c a h2, h1]; decide
    case gt => exact absurd h2 hbc
  case eq =>
    rw [laws.eq_left a b c h1]
    exact hbc
  case gt => exact absurd h1 hab

/-- When the first list is a strict prefix of the second, the descendant
list compares greater than its ancestor. -/
theorem listLex_append_gt {cmp : α → α → Ordering} (h : CmpLaws cmp)
    (x : List α) (y : α) (ys : List α) :
    listLex cmp (x ++ y :: ys) x = Ordering.gt := by
  induction x with
  | nil => rfl
  | cons a as ih => simp [listLex, h.self_eq, ih]

theorem sorted_aggregateTags (norm : List Char → List Char)
    (items : List ContentItem) (req : Requester) :
    List.Sorted (tagLE norm) (aggregateTags norm items req) := by
  haveI : IsTotal String (tagLE norm) := ⟨tagLE_total norm⟩
  haveI : IsTrans String (tagLE norm) := ⟨tagLE_trans norm⟩
  exact List.sorted_insertionSort (tagLE norm) _

theorem perm_aggregateTags (norm : List Char → List Char)
    (items : List ContentItem) (req : Requester) :
    List.Perm (aggregateTags norm items req)
      (((visibleTags items req).filter (fun t => !(trimEmpty t))).dedup) :=
  List.perm_insertionSort (tagLE norm) _

theorem nodup_aggregateTags (norm : List Char → List Char)
    (items : List ContentItem) (req : Requester) :
    (aggregateTags norm items req).Nodup :=
  (perm_aggregateTags norm items req).nodup_iff.mpr (List.nodup_dedup _)

theorem mem_aggregateTags (norm : List Char → List Char)
    (items : List ContentItem) (req : Requester) (t : String) :
    t ∈ aggregateTags norm items req ↔
      trimEmpty t = false ∧ t ∈ visibleTags items req := by
  rw [(perm_aggregateTags norm items req).mem_iff, List.mem_dedup, List.mem_filter]
  simp [Bool.not_eq_true', and_comm]

theorem count_aggregateTags (norm : List Char → List Char)
    (items : List ContentItem) (req : Requester) (t : String)
    (hmem : t ∈ aggregateTags norm items req) :
    (aggregateTags norm items req).count t = 1 :=
  List.count_eq_one_of_mem (nodup_aggregateTags norm items req) hmem

theorem mem_visibleTags (items : List ContentItem) (req : Requester) (t : String) :
    t ∈ visibleTags items req ↔
      ∃ it, it ∈ items ∧ canView it.visibility it.creatorId req = true ∧
        t ∈ it.tags := by
  unfold visibleTags
  simp only [List.mem_flatten, List.mem_map, List.mem_filter]
  constructor
  · rintro ⟨l, ⟨it, ⟨hitems, hview⟩, rfl⟩, ht⟩
    exact ⟨it, hitems, hview, ht⟩
  · rintro ⟨it, hitems, hview, ht⟩
    exact ⟨it.tags, ⟨it, ⟨hitems, hview⟩, rfl⟩, ht⟩

theorem visibleTags_mono (items : List ContentItem) (r₁ r₂ : Requester)
    (hmono : ∀ it, it ∈ items →
      canView it.visibility it.creatorId r₁ = true →
      canView it.visibility it.creatorId r₂ = true)
    (t : String) (ht : t ∈ visibleTags items r₁) : t ∈ visibleTags items r₂ := by
  rw [mem_visibleTags] at ht ⊢
  obtain ⟨it, hitems, hview, htag⟩ := ht
  exact ⟨it, hitems, hmono it hitems hview, htag⟩

theorem delete_err_not_notFound (env : DeleteEnv) (e : Err)
    (h : (DeleteMemoReaction env).result = Except.error e) : e.code ≠ Code.notFound := by
  unfold DeleteMemoReaction at h
  repeat' split at h
  all_goals (try exact Except.noConfusion h)
  all_goals (injection h with h2; subst h2; simp)

/-- C1: for an authenticated requester, deleting a reaction id absent from
the store and deleting another, non-privileged user's existing reaction
both produce the identical `PermissionDenied` error, and no branch of
`DeleteMemoReaction` ever produces a not-found error. -/
theorem DeleteMemoReaction_masks_missing_reaction (env : DeleteEnv) (u : User)
    (muid : String) (rid : Int)
    (hu : env.fetchCurrentUser = .ok (some u))
    (hp : env.parseReactionName = .ok (muid, rid))
    (hg : env.getReactionFails = false) :
    ((∀ r ∈ env.db, r.id ≠ rid) →
      (DeleteMemoReaction env).result =
        .error ⟨.permissionDenied, "permission denied"⟩) ∧
    (∀ r, storeGetReaction env.db ⟨some rid, none⟩ = some r →
      r.creatorId ≠ u.id → isSuperUser u = false →
      (DeleteMemoReaction env).result =
        .error ⟨.permissionDenied, "permission denied"⟩) ∧
    (∀ env2 : DeleteEnv, ∀ e : Err,
      (DeleteMemoReaction env2).result = Except.error e → e.code ≠ Code.notFound) := by
  refine ⟨?_, ?_, fun env2 e he => delete_err_not_notFound env2 e he⟩
  · intro habs
    have hnone : storeGetReaction env.db ⟨some rid, none⟩ = none := by
      unfold storeGetReaction storeListReactions
      rw [List.head?_eq_none_iff, List.filter_eq_nil_iff]
      intro r hr
      simp [matchesFind]
      exact habs r hr
    simp [DeleteMemoReaction, hu, hp, hg, hnone]
  · intro r hr hneq hsup
    simp [DeleteMemoReaction, hu, hp, hg, hr, hneq, hsup]

/-- C2: whenever the current user is resolved and the store upsert
succeeds, `UpsertMemoReaction` returns the converted stored reaction; the
returned value does not mention any webhook-phase outcome, so no failure of
memo resolution, enrichment fetches, conversion or dispatch is propagated
or changes the result. -/
theorem UpsertMemoReaction_webhook_failures_not_propagated (env : UpsertEnv)
    (req : UpsertRequest) (u : User) (rid ts : Int)
    (hu : env.fetchCurrentUser = .ok (some u))
    (hup : env.upsertResult = .ok (rid, ts)) :
    (UpsertMemoReaction env req).result =
      .ok (convertReactionFromStore (storeUpsertReaction
        ⟨0, u.id, req.reaction.contentId, req.reaction.reactionType, 0⟩ rid ts)) := by
  simp [UpsertMemoReaction, hu, hup]

/-- C3: for an existing reaction, `DeleteMemoReaction` succeeds exactly
when the requester is the reaction's creator or privileged (the check reads
only the reaction's own creator id, which here ranges over arbitrary stored
rows), and in every other case returns `PermissionDenied` without invoking
the store delete. -/
theorem DeleteMemoReaction_ownership_check (env : DeleteEnv) (u : User)
    (muid : String) (rid : Int) (r : StoreReaction)
    (hu : env.fetchCurrentUser = .ok (some u))
    (hp : env.parseReactionName = .ok (muid, rid))
    (hg : env.getReactionFails = false)
    (hr : storeGetReaction env.db ⟨some rid, none⟩ = some r)
    (hd : env.deleteReactionFails = false) :
    ((DeleteMemoReaction env).result = .ok () ↔
      (r.creatorId = u.id ∨ isSuperUser u = true)) ∧
    ((r.creatorId = u.id ∨ isSuperUser u = true) →
      (DeleteMemoReaction env).deleteCalled = true) ∧
    (¬(r.creatorId = u.id ∨ isSuperUser u = true) →
      (DeleteMemoReaction env).result =
        .error ⟨.permissionDenied, "permission denied"⟩ ∧
      (DeleteMemoReaction env).deleteCalled = false) := by
  by_cases hok : r.creatorId = u.id ∨ isSuperUser u = true
  · have hcond : (r.creatorId != u.id && !(isSuperUser u)) = false := by
      rcases hok with h | h <;> simp [h]
    have hres : (DeleteMemoReaction env).result = .ok () := by
      simp [DeleteMemoReaction, hu, hp, hg, hr, hcond, hd]
    have hcall : (DeleteMemoReaction env).deleteCalled = true := by
      simp [DeleteMemoReaction, hu, hp, hg, hr, hcond, hd]
    exact ⟨by rw [hres]; exact ⟨fun _ => hok, fun _ => rfl⟩,
      fun _ => hcall, fun hc => absurd hok hc⟩
  · have h1 : r.creatorId ≠ u.id := fun h => hok (Or.inl h)
    have h2 : isSuperUser u = false := by
      cases hsu : isSuperUser u
      · rfl
      · exact absurd (Or.inr hsu) hok
    have hcond : (r.creatorId != u.id && !(isSuperUser u)) = true := by
      simp [h1, h2]
    have hres : (DeleteMemoReaction env).result =
        .error ⟨.permissionDenied, "permission denied"⟩ := by
      simp [DeleteMemoReaction, hu, hp, hg, hr, hcond]
    have hcall : (DeleteMemoReaction env).deleteCalled = false := by
      simp [DeleteMemoReaction, hu, hp, hg, hr, hcond]
    refine ⟨?_, fun h => absurd h hok, fun _ => ⟨hres, hcall⟩⟩
    rw [hres]
    exact ⟨fun habs => absurd habs (by simp), fun hdisj => absurd hdisj hok⟩

/-- C4: when no authenticated requester identity is present, both
`UpsertMemoReaction` and `DeleteMemoReaction` fail with `Unauthenticated`
and neither reaches its mutating store call. -/
theorem unauthenticated_requests_rejected_without_mutation
    (uenv : UpsertEnv) (req : UpsertRequest) (denv : DeleteEnv)
    (hu : uenv.fetchCurrentUser = .ok none)
    (hd : denv.fetchCurrentUser = .ok none) :
    ((UpsertMemoReaction uenv req).result =
        .error ⟨.unauthenticated, "user not authenticated"⟩ ∧
      (UpsertMemoReaction uenv req).storedRow = none) ∧
    ((DeleteMemoReaction denv).result =
        .error ⟨.unauthenticated, "user not authenticated"⟩ ∧
      (DeleteMemoReaction denv).deleteCalled = false) := by
  constructor
  · constructor <;> simp [UpsertMemoReaction, hu]
  · constructor <;> simp [DeleteMemoReaction, hd]

/-- C8: once webhook assembly is reached inside `UpsertMemoReaction`, a
failed reaction-list fetch is replaced by the empty list and a failed
attachment-list fetch is replaced by the empty list, in each case with the
corresponding warning logged, and assembly still proceeds to dispatch
whenever payload conversion succeeds. -/
theorem upsert_webhook_fetch_failures_degrade (env : UpsertEnv)
    (req : UpsertRequest) (u : User) (rid ts : Int) (muid : String) (m : Memo)
    (hu : env.fetchCurrentUser = .ok (some u))
    (hup : env.upsertResult = .ok (rid, ts))
    (hx : env.extractMemoUID = .ok muid)
    (hm : env.getMemoResult = .ok (some m)) :
    (env.listReactionsResult = .error () →
      (UpsertMemoReaction env req).trace.reactionsUsed = some [] ∧
      Warn.listReactionsFailed ∈ (UpsertMemoReaction env req).trace.warnings ∧
      (env.convertMemoOk = true →
        (UpsertMemoReaction env req).trace.dispatched = true)) ∧
    (env.listAttachmentsResult = .error () →
      (UpsertMemoReaction env req).trace.attachmentsUsed = some [] ∧
      Warn.listAttachmentsFailed ∈ (UpsertMemoReaction env req).trace.warnings ∧
      (env.convertMemoOk = true →
        (UpsertMemoReaction env req).trace.dispatched = true)) := by
  have htr : (UpsertMemoReaction env req).trace = upsertWebhookPhase env := by
    simp [UpsertMemoReaction, hu, hup]
  rw [htr]
  constructor
  · intro hr
    cases ha : env.listAttachmentsResult <;>
      cases hc : env.convertMemoOk <;>
        cases hdp : env.dispatchOk <;>
          simp [upsertWebhookPhase, hx, hm, hr, ha, hc, hdp]
  · intro ha
    cases hr : env.listReactionsResult <;>
      cases hc : env.convertMemoOk <;>
        cases hdp : env.dispatchOk <;>
          simp [upsertWebhookPhase, hx, hm, hr, ha, hc, hdp]

/-- C9: `ListMemoReactions` takes no requester identity at all and, when
the store read succeeds, returns exactly the conversions of the stored
reactions whose content id equals the requested name — no ownership or
visibility filtering. -/
theorem ListMemoReactions_returns_all_for_content (db : List StoreReaction)
    (name : String) :
    ∃ out, ListMemoReactions false db name = .ok out ∧
      ∀ m, m ∈ out ↔
        ∃ r, r ∈ db ∧ r.contentId = name ∧ m = convertReactionFromStore r := by
  refine ⟨_, rfl, ?_⟩
  intro m
  constructor
  · intro hm
    rw [List.mem_map] at hm
    obtain ⟨r, hr, rfl⟩ := hm
    unfold storeListReactions at hr
    rw [List.mem_filter] at hr
    refine ⟨r, hr.1, ?_, rfl⟩
    have := hr.2
    simp [matchesFind] at this
    exact this
  · rintro ⟨r, hrdb, hrc, rfl⟩
    rw [List.mem_map]
    refine ⟨r, ?_, rfl⟩
    unfold storeListReactions
    rw [List.mem_filter]
    exact ⟨hrdb, by simp [matchesFind, hrc]⟩

/-- C10: the row `UpsertMemoReaction` hands to the store always carries the
requester's own user id as creator — the request's own creator field is
never consulted — and the returned message's name and creator are composed
as content id + `/` + reaction prefix + numeric id, and user prefix +
creator id. -/
theorem UpsertMemoReaction_creator_is_requester (env : UpsertEnv)
    (req : UpsertRequest) (u : User) (rid ts : Int)
    (hu : env.fetchCurrentUser = .ok (some u))
    (hup : env.upsertResult = .ok (rid, ts)) :
    (UpsertMemoReaction env req).storedRow =
      some ⟨0, u.id, req.reaction.contentId, req.reaction.reactionType, 0⟩ ∧
    (UpsertMemoReaction env req).result = .ok
      { name := req.reaction.contentId ++ "/" ++ ReactionNamePrefix ++ toString rid
        creator := UserNamePrefix ++ toString u.id
        contentId := req.reaction.contentId
        reactionType := req.reaction.reactionType
        createTime := ts } := by
  constructor <;>
    simp [UpsertMemoReaction, hu, hup, convertReactionFromStore, storeUpsertReaction]

/-- C5: when both a tag `p` and a tag whose segment sequence strictly
extends `p`'s segment sequence appear in the aggregated output, the
ancestor `p` is positioned before its descendant, for every normalization
function. -/
theorem aggregateTags_ancestor_precedes_descendant
    (norm : List Char → List Char) (items : List ContentItem) (req : Requester)
    (p q : String)
    (hp : p ∈ aggregateTags norm items req)
    (hq : q ∈ aggregateTags norm items req)
    (hpre : ∃ rest, rest ≠ [] ∧ tagSegs q = tagSegs p ++ rest) :
    (aggregateTags norm items req).indexOf p <
      (aggregateTags norm items req).indexOf q := by
  obtain ⟨rest, hne, hseg⟩ := hpre
  obtain ⟨y, ys, rfl⟩ : ∃ y ys, rest = y :: ys := by
    cases rest with
    | nil => exact absurd rfl hne
    | cons y ys => exact ⟨y, ys, rfl⟩
  have hgt : tagCmp norm q p = Ordering.gt := by
    unfold tagCmp cmpOn
    rw [hseg]
    exact listLex_append_gt (segCmp_laws norm) (tagSegs p) y ys
  have hnpq : p ≠ q := by
    intro hpq
    subst hpq
    have hlen := congrArg List.length hseg
    simp at hlen
  have hplen := List.indexOf_lt_length.mpr hp
  have hqlen := List.indexOf_lt_length.mpr hq
  rcases Nat.lt_trichotomy ((aggregateTags norm items req).indexOf p)
    ((aggregateTags norm items req).indexOf q) with hlt | heq | hgt2
  · exact hlt
  · exfalso
    apply hnpq
    have h1 := List.indexOf_get (a := p) (l := aggregateTags norm items req) hplen
    have h2 := List.indexOf_get (a := q) (l := aggregateTags norm items req) hqlen
    rw [← h1, ← h2]
    congr 1
    exact Fin.ext heq
  · exfalso
    have hs := sorted_aggregateTags norm items req
    have hrel := hs.rel_get_of_lt
      (a := ⟨_, hqlen⟩) (b := ⟨_, hplen⟩) hgt2
    rw [List.indexOf_get hqlen, List.indexOf_get hplen] at hrel
    exact hrel hgt

/-- C6: over one owner's content, the aggregated tag set for an anonymous
requester is contained in the set for any authenticated non-privileged
requester, which is contained both in the owner's set and in any privileged
requester's set. -/
theorem aggregateTags_visibility_monotone (norm : List Char → List Char)
    (items : List ContentItem) (owner uid uid2 w : Int) (priv : Bool)
    (hown : ∀ it, it ∈ items → it.creatorId = owner) :
    (∀ t, t ∈ aggregateTags norm items .anonymous →
      t ∈ aggregateTags norm items (.authenticated uid false)) ∧
    (∀ t, t ∈ aggregateTags norm items (.authenticated uid2 false) →
      t ∈ aggregateTags norm items (.authenticated owner priv)) ∧
    (∀ t, t ∈ aggregateTags norm items (.authenticated uid2 false) →
      t ∈ aggregateTags norm items (.authenticated w true)) := by
  refine ⟨?_, ?_, ?_⟩
  · intro t ht
    rw [mem_aggregateTags] at ht ⊢
    refine ⟨ht.1, visibleTags_mono items _ _ ?_ t ht.2⟩
    intro it _ hview
    simp [canView] at hview
    simp [canView, hview]
  · intro t ht
    rw [mem_aggregateTags] at ht ⊢
    refine ⟨ht.1, visibleTags_mono items _ _ ?_ t ht.2⟩
    intro it hit _
    simp [canView, hown it hit]
  · intro t ht
    rw [mem_aggregateTags] at ht ⊢
    refine ⟨ht.1, visibleTags_mono items _ _ ?_ t ht.2⟩
    intro it _ _
    simp [canView]

/-- C7: no tag that is empty after trimming ever appears in the aggregated
output, and every visible tag that is non-empty after trimming appears in
the output exactly once, whatever the input multiset. -/
theorem aggregateTags_dedup_and_drops_empty (norm : List Char → List Char)
    (items : List ContentItem) (req : Requester) :
    (∀ t, t ∈ aggregateTags norm items req → trimEmpty t = false) ∧
    (∀ t, t ∈ visibleTags items req → trimEmpty t = false →
      (aggregateTags norm items req).count t = 1) := by
  constructor
  · intro t ht
    exact ((mem_aggregateTags norm items req t).mp ht).1
  · intro t hvis hne
    exact count_aggregateTags norm items req t
      ((mem_aggregateTags norm items req t).mpr ⟨hne, hvis⟩)

theorem DeleteMemoReaction_masks_missing_reaction_witness :
    (DeleteMemoReaction ⟨.ok (some ⟨1, false⟩), .ok ("memos/m1", 42),
      [⟨7, 2, "memos/m1", "like", 100⟩], false, false⟩).result =
      .error ⟨.permissionDenied, "permission denied"⟩ ∧
    (DeleteMemoReaction ⟨.ok (some ⟨1, false⟩), .ok ("memos/m1", 7),
      [⟨7, 2, "memos/m1", "like", 100⟩], false, false⟩).result =
      .error ⟨.permissionDenied, "permission denied"⟩ :=
  ⟨(DeleteMemoReaction_masks_missing_reaction _ ⟨1, false⟩ "memos/m1" 42
      rfl rfl rfl).1 (by decide),
   (DeleteMemoReaction_masks_missing_reaction _ ⟨1, false⟩ "memos/m1" 7
      rfl rfl rfl).2.1 ⟨7, 2, "memos/m1", "like", 100⟩ (by decide) (by decide) rfl⟩

theorem UpsertMemoReaction_webhook_failures_not_propagated_witness :
    (UpsertMemoReaction
      ⟨.ok (some ⟨1, false⟩), .ok (5, 100), .error "bad name", .error (), .error (),
        .error (), false, false⟩
      ⟨⟨"", "users/9", "memos/m1", "like"⟩⟩).result =
      .ok (convertReactionFromStore
        (storeUpsertReaction ⟨0, 1, "memos/m1", "like", 0⟩ 5 100)) :=
  UpsertMemoReaction_webhook_failures_not_propagated _ _ ⟨1, false⟩ 5 100 rfl rfl

theorem DeleteMemoReaction_ownership_check_witness :
    (DeleteMemoReaction ⟨.ok (some ⟨2, false⟩), .ok ("memos/m1", 7),
      [⟨7, 2, "memos/m1", "like", 100⟩], false, false⟩).result = .ok () :=
  (DeleteMemoReaction_ownership_check _ ⟨2, false⟩ "memos/m1" 7
    ⟨7, 2, "memos/m1", "like", 100⟩ rfl rfl rfl (by decide) rfl).1.mpr (Or.inl rfl)

theorem unauthenticated_requests_rejected_without_mutation_witness :
    ((UpsertMemoReaction
        ⟨.ok none, .ok (1, 1), .error "x", .ok none, .ok [], .ok [], true, true⟩
        ⟨⟨"", "", "memos/m1", "like"⟩⟩).result =
      .error ⟨.unauthenticated, "user not authenticated"⟩ ∧
      (UpsertMemoReaction
        ⟨.ok none, .ok (1, 1), .error "x", .ok none, .ok [], .ok [], true, true⟩
        ⟨⟨"", "", "memos/m1", "like"⟩⟩).storedRow = none) ∧
    ((DeleteMemoReaction ⟨.ok none, .ok ("memos/m1", 7), [], false, false⟩).result =
      .error ⟨.unauthenticated, "user not authenticated"⟩ ∧
      (DeleteMemoReaction ⟨.ok none, .ok ("memos/m1", 7), [], false, false⟩).deleteCalled =
        false) :=
  unauthenticated_requests_rejected_without_mutation _ _ _ rfl rfl

theorem upsert_webhook_fetch_failures_degrade_witness :
    (UpsertMemoReaction
      ⟨.ok (some ⟨1, false⟩), .ok (5, 100), .ok "m1", .ok (some ⟨3, "m1"⟩),
        .error (), .error (), true, true⟩
      ⟨⟨"", "", "memos/m1", "like"⟩⟩).trace.reactionsUsed = some [] ∧
    (UpsertMemoReaction
      ⟨.ok (some ⟨1, false⟩), .ok (5, 100), .ok "m1", .ok (some ⟨3, "m1"⟩),
        .error (), .error (), true, true⟩
      ⟨⟨"", "", "memos/m1", "like"⟩⟩).trace.attachmentsUsed = some [] ∧
    (UpsertMemoReaction
      ⟨.ok (some ⟨1, false⟩), .ok (5, 100), .ok "m1", .ok (some ⟨3, "m1"⟩),
        .error (), .error (), true, true⟩
      ⟨⟨"", "", "memos/m1", "like"⟩⟩).trace.dispatched = true := by
  have h := upsert_webhook_fetch_failures_degrade
    ⟨.ok (some ⟨1, false⟩), .ok (5, 100), .ok "m1", .ok (some ⟨3, "m1"⟩),
      .error (), .error (), true, true⟩
    ⟨⟨"", "", "memos/m1", "like"⟩⟩ ⟨1, false⟩ 5 100 "m1" ⟨3, "m1"⟩ rfl rfl rfl rfl
  exact ⟨(h.1 rfl).1, (h.2 rfl).1, (h.1 rfl).2.2 rfl⟩

theorem UpsertMemoReaction_creator_is_requester_witness :
    (UpsertMemoReaction
      ⟨.ok (some ⟨1, false⟩), .ok (5, 100), .error "x", .ok none, .ok [], .ok [],
        true, true⟩
      ⟨⟨"", "users/99", "memos/m1", "like"⟩⟩).storedRow =
      some ⟨0, 1, "memos/m1", "like", 0⟩ ∧
    (UpsertMemoReaction
      ⟨.ok (some ⟨1, false⟩), .ok (5, 100), .error "x", .ok none, .ok [], .ok [],
        true, true⟩
      ⟨⟨"", "users/99", "memos/m1", "like"⟩⟩).result = .ok
      { name := "memos/m1" ++ "/" ++ ReactionNamePrefix ++ toString (5 : Int)
        creator := UserNamePrefix ++ toString (1 : Int)
        contentId := "memos/m1"
        reactionType := "like"
        createTime := 100 } :=
  UpsertMemoReaction_creator_is_requester _ _ ⟨1, false⟩ 5 100 rfl rfl

theorem aggregateTags_ancestor_precedes_descendant_witness :
    (aggregateTags id [⟨1, .Public, ["a/b", "a"]⟩] .anonymous).indexOf "a" <
      (aggregateTags id [⟨1, .Public, ["a/b", "a"]⟩] .anonymous).indexOf "a/b" :=
  aggregateTags_ancestor_precedes_descendant id [⟨1, .Public, ["a/b", "a"]⟩]
    .anonymous "a" "a/b" (by decide) (by decide)
    ⟨[['b']], by decide, by decide⟩

theorem aggregateTags_visibility_monotone_witness :
    "pub" ∈ aggregateTags id
      [⟨1, .Public, ["pub"]⟩, ⟨1, .Protected, ["prot"]⟩, ⟨1, .Private, ["priv"]⟩]
      (.authenticated 2 false) ∧
    "prot" ∈ aggregateTags id
      [⟨1, .Public, ["pub"]⟩, ⟨1, .Protected, ["prot"]⟩, ⟨1, .Private, ["priv"]⟩]
      (.authenticated 1 false) ∧
    "prot" ∈ aggregateTags id
      [⟨1, .Public, ["pub"]⟩, ⟨1, .Protected, ["prot"]⟩, ⟨1, .Private, ["priv"]⟩]
      (.authenticated 3 true) := by
  have h := aggregateTags_visibility_monotone id
    [⟨1, .Public, ["pub"]⟩, ⟨1, .Protected, ["prot"]⟩, ⟨1, .Private, ["priv"]⟩]
    1 2 2 3 false (by decide)
  exact ⟨h.1 "pub" (by decide), h.2.1 "prot" (by decide), h.2.2 "prot" (by decide)⟩

theorem aggregateTags_dedup_and_drops_empty_witness :
    (aggregateTags id [⟨1, .Public, ["x", "x", " "]⟩] .anonymous).count "x" = 1 :=
  (aggregateTags_dedup_and_drops_empty id [⟨1, .Public, ["x", "x", " "]⟩]
    .anonymous).2 "x" (by decide) (by decide)

end Memos
